import Mathlib

/-!
Verification of the bounding-box pipeline of `lightnet` (`src/lightnet/bbox.py`).

The development shallowly embeds the three components of the file:

* `bbox_iou` — the IoU helper (lines 166-190), over `ℚ` (exact rational
  arithmetic standing in for Python floats);
* `BBoxConverter._get_region_boxes_nms` — split into the tensor decode
  (lines 61-75, over `ℝ` because it uses `sigmoid`/`exp`/`softmax`) and the
  rank-and-suppress loop (lines 77-115, over `ℚ`);
* `BBoxToBrambox` — the letterbox coordinate mapper (lines 120-163), over `ℚ`.
-/

namespace Lightnet

/-- A bounding box in center form `[xc, yc, w, h]`, the format consumed by
`bbox_iou` (`bbox.py` line 168). -/
structure Box where
  x : ℚ
  y : ℚ
  w : ℚ
  h : ℚ
deriving DecidableEq

/-- `bbox_iou` (`bbox.py` lines 166-190): enclosing extents, the
`w1+w2-union` shortcut for the intersection dimensions, `0.0` when either
intersection dimension is `≤ 0`, else `iarea/uarea`. -/
def bbox_iou (box1 box2 : Box) : ℚ :=
  let mx := min (box1.x - box1.w / 2) (box2.x - box2.w / 2)
  let Mx := max (box1.x + box1.w / 2) (box2.x + box2.w / 2)
  let my := min (box1.y - box1.h / 2) (box2.y - box2.h / 2)
  let My := max (box1.y + box1.h / 2) (box2.y + box2.h / 2)
  let uw := Mx - mx
  let uh := My - my
  let iw := box1.w + box2.w - uw
  let ih := box1.h + box2.h - uh
  if iw ≤ 0 ∨ ih ≤ 0 then 0
  else
    let area1 := box1.w * box1.h
    let area2 := box2.w * box2.h
    let iarea := iw * ih
    let uarea := area1 + area2 - iarea
    iarea / uarea

theorem bbox_iou_comm (a b : Box) : bbox_iou a b = bbox_iou b a := by
  unfold bbox_iou
  rw [min_comm (a.x - a.w / 2), max_comm (a.x + a.w / 2),
      min_comm (a.y - a.h / 2), max_comm (a.y + a.h / 2)]
  ring_nf

theorem bbox_iou_self (a : Box) (hw : 0 < a.w) (hh : 0 < a.h) :
    bbox_iou a a = 1 := by
  unfold bbox_iou
  simp only [min_self, max_self]
  have hw' : a.w + a.w - (a.x + a.w / 2 - (a.x - a.w / 2)) = a.w := by ring
  have hh' : a.h + a.h - (a.y + a.h / 2 - (a.y - a.h / 2)) = a.h := by ring
  rw [hw', hh']
  rw [if_neg (by push_neg; exact ⟨hw, hh⟩)]
  have : a.w * a.h + a.w * a.h - a.w * a.h = a.w * a.h := by ring
  rw [this, div_self (by positivity)]

theorem bbox_iou_disjoint (a b : Box)
    (h : a.w + b.w -
          (max (a.x + a.w / 2) (b.x + b.w / 2) -
            min (a.x - a.w / 2) (b.x - b.w / 2)) ≤ 0 ∨
         a.h + b.h -
          (max (a.y + a.h / 2) (b.y + b.h / 2) -
            min (a.y - a.h / 2) (b.y - b.h / 2)) ≤ 0) :
    bbox_iou a b = 0 := by
  unfold bbox_iou
  exact if_pos h

/-- One row of the per-image detection array built at `bbox.py` lines 97-104:
`[output[b,a,0,hw], output[b,a,1,hw], output[b,a,2,hw], output[b,a,3,hw],
cls_max[b,idx], cls_max_idx[b,idx]]`. -/
structure Detection6 where
  x : ℚ
  y : ℚ
  w : ℚ
  h : ℚ
  score : ℚ
  clsId : ℚ
deriving DecidableEq

/-- The ranking relation realised by `torch.sort(cls_max, 1, True)`
(`bbox.py` line 78): descending by score; the tie order of `torch.sort` is
modelled as stable, i.e. ties keep the original linear index order, matching
the determinism the surrounding code relies on. -/
def rankLE (s : ℕ → ℚ) (i j : ℕ) : Prop :=
  s j < s i ∨ (s i = s j ∧ i ≤ j)

instance rankLE.decRel (s : ℕ → ℚ) : DecidableRel (rankLE s) := fun i j => by
  unfold rankLE; infer_instance

instance rankLE.total (s : ℕ → ℚ) : IsTotal ℕ (rankLE s) := by
  constructor
  intro i j
  rcases lt_trichotomy (s i) (s j) with h | h | h
  · exact Or.inr (Or.inl h)
  · rcases Nat.le_total i j with hij | hij
    · exact Or.inl (Or.inr ⟨h, hij⟩)
    · exact Or.inr (Or.inr ⟨h.symm, hij⟩)
  · exact Or.inl (Or.inl h)

instance rankLE.trans (s : ℕ → ℚ) : IsTrans ℕ (rankLE s) := by
  constructor
  intro i j k hij hjk
  rcases hij with h1 | ⟨e1, l1⟩
  · rcases hjk with h2 | ⟨e2, _⟩
    · exact Or.inl (h2.trans h1)
    · exact Or.inl (e2 ▸ h1)
  · rcases hjk with h2 | ⟨e2, l2⟩
    · exact Or.inl (e1 ▸ h2)
    · exact Or.inr ⟨e1.trans e2, l1.trans l2⟩

/-- The sort order over the flat candidate indices `0 .. n-1` computed at
`bbox.py` line 78: `_, cls_max_sort_id = torch.sort(cls_max, 1, True)`. -/
def rankOrder (s : ℕ → ℚ) (n : ℕ) : List ℕ :=
  List.insertionSort (rankLE s) (List.range n)

/-- The inner suppression scan (`bbox.py` lines 106-113): walk the ranked
candidates after the just-emitted one; break at the first still-active
candidate below `conf_thresh`; write the sentinel `-1` into the score array
for every still-active candidate whose IoU with the emitted box exceeds
`nms_thresh`. -/
def nmsInner (conf_thresh nms_thresh : ℚ) (geom : ℕ → Box) (cur : Box) :
    List ℕ → (ℕ → ℚ) → (ℕ → ℚ)
  | [], s => s
  | idx2 :: rest, s =>
    if 0 ≤ s idx2 ∧ s idx2 < conf_thresh then s
    else if 0 ≤ s idx2 ∧ nms_thresh < bbox_iou cur (geom idx2) then
      nmsInner conf_thresh nms_thresh geom cur rest (Function.update s idx2 (-1))
    else
      nmsInner conf_thresh nms_thresh geom cur rest s

/-- The outer loop of `bbox.py` lines 88-113 over the ranked index list:
skip sentinel-marked candidates, stop at the first one below `conf_thresh`,
otherwise emit the candidate's row and run the inner suppression scan on the
remaining ranked candidates.  Each emitted row is paired with its flat
candidate index `idx` (the value the loop reads from `cls_max_sort_id`). -/
def nmsOuter (conf_thresh nms_thresh : ℚ) (geom : ℕ → Box) (clsIdx : ℕ → ℚ) :
    List ℕ → (ℕ → ℚ) → List (ℕ × Detection6)
  | [], _ => []
  | idx :: rest, s =>
    if s idx < 0 then nmsOuter conf_thresh nms_thresh geom clsIdx rest s
    else if s idx < conf_thresh then []
    else
      (idx, ⟨(geom idx).x, (geom idx).y, (geom idx).w, (geom idx).h,
             s idx, clsIdx idx⟩) ::
        nmsOuter conf_thresh nms_thresh geom clsIdx rest
          (nmsInner conf_thresh nms_thresh geom (geom idx) rest s)

theorem nmsInner_nil (ct nt : ℚ) (geom : ℕ → Box) (cur : Box) (s : ℕ → ℚ) :
    nmsInner ct nt geom cur [] s = s := rfl

theorem nmsInner_cons_break (ct nt : ℚ) (geom : ℕ → Box) (cur : Box)
    (idx2 : ℕ) (rest : List ℕ) (s : ℕ → ℚ)
    (h : 0 ≤ s idx2 ∧ s idx2 < ct) :
    nmsInner ct nt geom cur (idx2 :: rest) s = s := by
  simp only [nmsInner]
  rw [if_pos h]

theorem nmsInner_cons_mark (ct nt : ℚ) (geom : ℕ → Box) (cur : Box)
    (idx2 : ℕ) (rest : List ℕ) (s : ℕ → ℚ)
    (h1 : ¬ (0 ≤ s idx2 ∧ s idx2 < ct))
    (h2 : 0 ≤ s idx2 ∧ nt < bbox_iou cur (geom idx2)) :
    nmsInner ct nt geom cur (idx2 :: rest) s =
      nmsInner ct nt geom cur rest (Function.update s idx2 (-1)) := by
  simp only [nmsInner]
  rw [if_neg h1, if_pos h2]

theorem nmsInner_cons_pass (ct nt : ℚ) (geom : ℕ → Box) (cur : Box)
    (idx2 : ℕ) (rest : List ℕ) (s : ℕ → ℚ)
    (h1 : ¬ (0 ≤ s idx2 ∧ s idx2 < ct))
    (h2 : ¬ (0 ≤ s idx2 ∧ nt < bbox_iou cur (geom idx2))) :
    nmsInner ct nt geom cur (idx2 :: rest) s =
      nmsInner ct nt geom cur rest s := by
  simp only [nmsInner]
  rw [if_neg h1, if_neg h2]

theorem nmsOuter_nil (ct nt : ℚ) (geom : ℕ → Box) (clsIdx : ℕ → ℚ)
    (s : ℕ → ℚ) : nmsOuter ct nt geom clsIdx [] s = [] := rfl

theorem nmsOuter_cons_skip (ct nt : ℚ) (geom : ℕ → Box) (clsIdx : ℕ → ℚ)
    (idx : ℕ) (rest : List ℕ) (s : ℕ → ℚ) (h : s idx < 0) :
    nmsOuter ct nt geom clsIdx (idx :: rest) s =
      nmsOuter ct nt geom clsIdx rest s := by
  simp only [nmsOuter]
  rw [if_pos h]

theorem nmsOuter_cons_break (ct nt : ℚ) (geom : ℕ → Box) (clsIdx : ℕ → ℚ)
    (idx : ℕ) (rest : List ℕ) (s : ℕ → ℚ) (h1 : ¬ s idx < 0)
    (h2 : s idx < ct) :
    nmsOuter ct nt geom clsIdx (idx :: rest) s = [] := by
  simp only [nmsOuter]
  rw [if_neg h1, if_pos h2]

theorem nmsOuter_cons_emit (ct nt : ℚ) (geom : ℕ → Box) (clsIdx : ℕ → ℚ)
    (idx : ℕ) (rest : List ℕ) (s : ℕ → ℚ) (h1 : ¬ s idx < 0)
    (h2 : ¬ s idx < ct) :
    nmsOuter ct nt geom clsIdx (idx :: rest) s =
      (idx, ⟨(geom idx).x, (geom idx).y, (geom idx).w, (geom idx).h,
             s idx, clsIdx idx⟩) ::
        nmsOuter ct nt geom clsIdx rest
          (nmsInner ct nt geom (geom idx) rest s) := by
  simp only [nmsOuter]
  rw [if_neg h1, if_neg h2]

/-- The whole rank-and-suppress stage for one image (`bbox.py` lines 77-115):
`n = num_anchors*h*w` candidates with geometry `geom`, class index `clsIdx`
and combined score `s`, processed in the `torch.sort` order. -/
def getRegionBoxesImage (conf_thresh nms_thresh : ℚ) (geom : ℕ → Box)
    (clsIdx : ℕ → ℚ) (s : ℕ → ℚ) (n : ℕ) : List (ℕ × Detection6) :=
  nmsOuter conf_thresh nms_thresh geom clsIdx (rankOrder s n) s

/-- A score state reachable from the initial scores `s0`: the suppression
loop only ever overwrites entries with the sentinel `-1`. -/
def SentinelOnly (s0 s : ℕ → ℚ) : Prop :=
  ∀ k, s k = s0 k ∨ s k = -1

theorem sentinelOnly_refl (s0 : ℕ → ℚ) : SentinelOnly s0 s0 :=
  fun _ => Or.inl rfl

theorem nmsInner_sentinelOnly (ct nt : ℚ) (geom : ℕ → Box) (cur : Box) :
    ∀ (order : List ℕ) (s0 s : ℕ → ℚ), SentinelOnly s0 s →
      SentinelOnly s0 (nmsInner ct nt geom cur order s) := by
  intro order
  induction order with
  | nil => intro s0 s h; exact h
  | cons idx2 rest ih =>
    intro s0 s h
    unfold nmsInner
    split
    · exact h
    · split
      · refine ih s0 _ (fun k => ?_)
        by_cases hk : k = idx2
        · subst hk; right; simp [Function.update]
        · rw [Function.update_noteq hk]; exact h k
      · exact ih s0 s h

theorem nmsOuter_mem (ct nt : ℚ) (geom : ℕ → Box) (clsIdx : ℕ → ℚ) :
    ∀ (order : List ℕ) (s0 s : ℕ → ℚ), SentinelOnly s0 s →
      ∀ p ∈ nmsOuter ct nt geom clsIdx order s,
        p.2 = ⟨(geom p.1).x, (geom p.1).y, (geom p.1).w, (geom p.1).h,
               s0 p.1, clsIdx p.1⟩ ∧
        ct ≤ s0 p.1 ∧ 0 ≤ s0 p.1 := by
  intro order
  induction order with
  | nil => intro s0 s _ p hp; simp [nmsOuter] at hp
  | cons idx rest ih =>
    intro s0 s h p hp
    unfold nmsOuter at hp
    split at hp
    · exact ih s0 s h p hp
    · split at hp
      · simp at hp
      · rename_i hneg hct
        have h0 : 0 ≤ s idx := not_lt.mp hneg
        have hs : s idx = s0 idx := by
          rcases h idx with he | he
          · exact he
          · rw [he] at h0; norm_num at h0
        rcases List.mem_cons.mp hp with hp | hp
        · subst hp
          refine ⟨by rw [← hs], ?_, ?_⟩
          · rw [← hs]; exact not_lt.mp hct
          · rw [← hs]; exact h0
        · exact ih s0 _ (nmsInner_sentinelOnly ct nt geom _ rest s0 s h) p hp

theorem nmsOuter_fst_sublist (ct nt : ℚ) (geom : ℕ → Box) (clsIdx : ℕ → ℚ) :
    ∀ (order : List ℕ) (s : ℕ → ℚ),
      List.Sublist ((nmsOuter ct nt geom clsIdx order s).map Prod.fst) order := by
  intro order
  induction order with
  | nil => intro s; simp [nmsOuter]
  | cons idx rest ih =>
    intro s
    unfold nmsOuter
    split
    · exact (ih s).cons idx
    · split
      · simp
      · simpa using (ih (nmsInner ct nt geom (geom idx) rest s)).cons₂ idx

theorem sentinelOnly_lt_zero_iff (s0 s : ℕ → ℚ) (h0 : ∀ k, 0 ≤ s0 k)
    (h : SentinelOnly s0 s) (k : ℕ) : s k < 0 ↔ s k = -1 := by
  rcases h k with he | he
  · rw [he]
    constructor
    · intro hlt; exact absurd (h0 k) (not_le.mpr hlt)
    · intro heq; rw [heq]; norm_num
  · rw [he]; norm_num

theorem rankOrder_perm (s : ℕ → ℚ) (n : ℕ) :
    List.Perm (rankOrder s n) (List.range n) :=
  List.perm_insertionSort (rankLE s) (List.range n)

theorem rankOrder_sorted (s : ℕ → ℚ) (n : ℕ) :
    (rankOrder s n).Pairwise (rankLE s) :=
  List.sorted_insertionSort (rankLE s) (List.range n)

theorem rankOrder_nodup (s : ℕ → ℚ) (n : ℕ) : (rankOrder s n).Nodup :=
  ((rankOrder_perm s n).nodup_iff).mpr (List.nodup_range n)

/-- The logistic function applied by `Tensor.sigmoid_` at `bbox.py`
lines 62-63 and 66. -/
noncomputable def sigmoid (x : ℝ) : ℝ := 1 / (1 + Real.exp (-x))

/-- `torch.nn.functional.softmax` along the class-logit dimension
(`bbox.py` line 70). -/
noncomputable def softmax (l : List ℝ) : List ℝ :=
  l.map (fun v => Real.exp v / (l.map Real.exp).sum)

/-- `torch.max` over a list of values (`bbox.py` line 71).  `torch.max`
requires a non-empty slice; the base value `0` is inert on the positive
softmax outputs the code applies it to. -/
noncomputable def maxD (l : List ℝ) : ℝ := l.foldr max 0

/-- `anchors[::2][a]` (`bbox.py` line 53): the width of anchor `a`. -/
def anchorW (anchors : List ℝ) (a : ℕ) : ℝ := anchors.getD (2 * a) 0

/-- `anchors[1::2][a]` (`bbox.py` line 54): the height of anchor `a`. -/
def anchorH (anchors : List ℝ) (a : ℕ) : ℝ := anchors.getD (2 * a + 1) 0

/-- The combined score `cls_max` of one candidate (`bbox.py` lines 69-75):
`sigmoid(raw_obj) * max(softmax(class logits))` when `num_classes > 1`,
else the objectness alone. -/
noncomputable def clsMaxScore (num_classes : ℕ) (rawObj : ℝ)
    (logits : List ℝ) : ℝ :=
  if 1 < num_classes then sigmoid rawObj * maxD (softmax logits)
  else sigmoid rawObj

/-- The in-place decode of `bbox.py` lines 61-66 on the tensor viewed as
`(batch, num_anchors, 5+num_classes, h*w)` (one batch element; the batch
dimension is an outer map).  `lin_x` at flat cell `hw` is the column
`hw % w` and `lin_y` is the row `hw / w` (lines 51-52).  The code mutates
`output` destructively (`sigmoid_`, `add_`, `exp_`, `mul_`, `div_`), so this
function is both the decoded result and the content of the caller's array
after the call; channels `≥ 5` are left untouched. -/
noncomputable def decodeTensor (w h : ℕ) (anchors : List ℝ)
    (inp : ℕ → ℕ → ℕ → ℝ) : ℕ → ℕ → ℕ → ℝ := fun a ch hw =>
  if ch = 0 then (sigmoid (inp a 0 hw) + (hw % w : ℕ)) / (w : ℝ)
  else if ch = 1 then (sigmoid (inp a 1 hw) + (hw / w : ℕ)) / (h : ℝ)
  else if ch = 2 then Real.exp (inp a 2 hw) * anchorW anchors a / (w : ℝ)
  else if ch = 3 then Real.exp (inp a 3 hw) * anchorH anchors a / (h : ℝ)
  else if ch = 4 then sigmoid (inp a 4 hw)
  else inp a ch hw

theorem sigmoid_pos (x : ℝ) : 0 < sigmoid x := by
  unfold sigmoid
  positivity

theorem sigmoid_lt_one (x : ℝ) : sigmoid x < 1 := by
  unfold sigmoid
  rw [div_lt_one (by positivity)]
  linarith [Real.exp_pos (-x)]

theorem sigmoid_zero : sigmoid 0 = 1 / 2 := by
  unfold sigmoid
  rw [neg_zero, Real.exp_zero]
  norm_num

theorem tendsto_sigmoid_one :
    Filter.Tendsto sigmoid Filter.atTop (nhds 1) := by
  have h1 : Filter.Tendsto (fun x : ℝ => Real.exp (-x)) Filter.atTop (nhds 0) :=
    Real.tendsto_exp_atBot.comp Filter.tendsto_neg_atTop_atBot
  have h2 : Filter.Tendsto (fun x : ℝ => 1 + Real.exp (-x)) Filter.atTop
      (nhds 1) := by
    simpa using tendsto_const_nhds.add h1
  have h3 := Filter.Tendsto.div (tendsto_const_nhds (x := (1 : ℝ))) h2
    one_ne_zero
  simpa [sigmoid] using h3

theorem softmax_mem_bounds (l : List ℝ) :
    ∀ v ∈ softmax l, 0 < v ∧ v ≤ 1 := by
  intro v hv
  unfold softmax at hv
  rcases List.mem_map.mp hv with ⟨x, hx, rfl⟩
  have hmem : Real.exp x ∈ l.map Real.exp := List.mem_map.mpr ⟨x, hx, rfl⟩
  have hle : Real.exp x ≤ (l.map Real.exp).sum :=
    List.single_le_sum (fun y hy => by
      rcases List.mem_map.mp hy with ⟨z, _, rfl⟩
      exact (Real.exp_pos z).le) _ hmem
  have hS : 0 < (l.map Real.exp).sum := lt_of_lt_of_le (Real.exp_pos x) hle
  constructor
  · positivity
  · rw [div_le_one hS]; exact hle

theorem maxD_bounds (l : List ℝ) (h : ∀ v ∈ l, 0 ≤ v ∧ v ≤ 1) :
    0 ≤ maxD l ∧ maxD l ≤ 1 := by
  induction l with
  | nil => simp [maxD]
  | cons a t ih =>
    have ha := h a (List.mem_cons_self a t)
    have ht := ih (fun v hv => h v (List.mem_cons_of_mem a hv))
    unfold maxD at ht ⊢
    simp only [List.foldr_cons]
    exact ⟨le_max_of_le_right ht.1, max_le ha.2 ht.2⟩

theorem clsMaxScore_bounds (nc : ℕ) (rawObj : ℝ) (logits : List ℝ) :
    0 ≤ clsMaxScore nc rawObj logits ∧ clsMaxScore nc rawObj logits ≤ 1 := by
  unfold clsMaxScore
  have hs0 := (sigmoid_pos rawObj).le
  have hs1 := (sigmoid_lt_one rawObj).le
  split
  · have hm := maxD_bounds (softmax logits)
      (fun v hv => ⟨(softmax_mem_bounds logits v hv).1.le,
                    (softmax_mem_bounds logits v hv).2⟩)
    exact ⟨mul_nonneg hs0 hm.1, mul_le_one₀ hs1 hm.1 hm.2⟩
  · exact ⟨hs0, hs1⟩

/-- The collaborating network object: the converter only reads `anchors`,
`num_classes` and `num_anchors` from it (`bbox.py` lines 26-28). -/
structure Network where
  anchors : List ℚ
  num_classes : ℕ
  num_anchors : ℕ

/-- The state of a `BBoxConverter` instance (`bbox.py` lines 23-28). -/
structure BBoxConverter where
  conf_thresh : ℚ
  nms_thresh : ℚ
  anchors : List ℚ
  num_classes : ℕ
  num_anchors : ℕ

/-- `BBoxConverter.__init__` (`bbox.py` lines 23-28): the constructor stores
its arguments as attributes and performs no validation whatsoever — in
particular the thresholds are not range-checked, so construction cannot
fail. -/
def BBoxConverter.init (network : Network) (conf_thresh nms_thresh : ℚ) :
    BBoxConverter :=
  ⟨conf_thresh, nms_thresh, network.anchors, network.num_classes,
   network.num_anchors⟩

/-- `if output.dim() == 3: output.unsqueeze_(0)` (`bbox.py` lines 41-42) on
the shape of the input array: a rank-3 shape gains a leading batch dimension
of size 1; any other rank is passed through. -/
def ensureBatch4 (dims : List ℕ) : List ℕ :=
  if dims.length = 3 then 1 :: dims else dims

/-- The failure modes of the decode stage on a batch-4 input with `C`
channels (`bbox.py` lines 61-71). -/
inductive ShapeErr where
  /-- `output.view(batch, num_anchors, -1, h*w)` (line 61) cannot infer the
  `-1` dimension: the element count forces `num_anchors ∣ C`. -/
  | viewMismatch : ShapeErr
  /-- fewer than 5 channels per anchor: the channel indexing of lines 62-66
  is out of bounds. -/
  | channelIndex : ShapeErr
  /-- `num_classes > 1` with no class-logit channels: the `torch.max` of
  line 71 reduces an empty dimension. -/
  | emptyClassSlice : ShapeErr
deriving DecidableEq

/-- The shape constraint the decode stage actually enforces on the channel
count `C` of the input (`bbox.py` lines 61-71): the view of line 61 only
needs `C` to be a multiple of `num_anchors`; the inferred per-anchor channel
count `C / num_anchors` then needs to cover the five box channels, plus at
least one class logit when `num_classes > 1`.  On success it returns the
inferred per-anchor channel count (the `-1` of the view). -/
def checkShape (num_anchors num_classes C : ℕ) : Except ShapeErr ℕ :=
  if C % num_anchors ≠ 0 then .error .viewMismatch
  else if C / num_anchors < 5 then .error .channelIndex
  else if 1 < num_classes ∧ C / num_anchors = 5 then .error .emptyClassSlice
  else .ok (C / num_anchors)

/-- The decoded candidates of one image, as they enter the rank-and-suppress
loop: `n = num_anchors*h*w` candidates with box geometry, class index and
combined score. -/
structure DecodedImage where
  n : ℕ
  geom : ℕ → Box
  clsIdx : ℕ → ℚ
  scores : ℕ → ℚ

/-- A batch input to the converter, staged after the numeric decode:
`channels` is `size(1)` of the raw tensor (checked at `bbox.py` line 61),
`images` are the per-image decoded candidates. -/
structure NmsInput where
  channels : ℕ
  images : List DecodedImage

/-- `BBoxConverter.__call__`/`_get_region_boxes_nms` (`bbox.py`
lines 30-117), staged over decoded candidates: check the channel count, then
run the rank-and-suppress loop independently on every image of the batch.
No property of the thresholds is checked anywhere on this path. -/
def BBoxConverter.call (cv : BBoxConverter) (inp : NmsInput) :
    Except ShapeErr (List (List (ℕ × Detection6))) :=
  match checkShape cv.num_anchors cv.num_classes inp.channels with
  | .error e => .error e
  | .ok _ => .ok (inp.images.map (fun im =>
      getRegionBoxesImage cv.conf_thresh cv.nms_thresh im.geom im.clsIdx
        im.scores im.n))

/-- Python's `int()` applied to a rational: truncation toward zero, as in
`pad = int((net_w-im_w*scale)/2), int((net_h-im_h*scale)/2)` (`bbox.py`
line 139). -/
def pyInt (q : ℚ) : ℤ := Int.tdiv q.num q.den

theorem pyInt_eq_floor (q : ℚ) (h : 0 ≤ q) : pyInt q = ⌊q⌋ := by
  unfold pyInt
  rw [Rat.floor_def]
  exact Int.tdiv_eq_ediv (Rat.num_nonneg.mpr h) (Int.natCast_nonneg q.den)

/-- The brambox `Detection` record as populated by `BBoxToBrambox`
(`bbox.py` lines 146-155).  The optional `class_label_map` lookup replaces
the numeric id by a string label and is not modelled (no claim concerns
it); `class_label` carries the numeric id `box[5]`. -/
structure DetOut where
  x_top_left : ℚ
  y_top_left : ℚ
  width : ℚ
  height : ℚ
  confidence : ℚ
  class_label : ℚ
deriving DecidableEq

/-- Modelled from the spec: brambox's `Detection.rescale` (called at
`bbox.py` line 159, not part of this repository) multiplies the box
geometry by the given factor — the spec's "divide by `scale` to map into
original image pixels" with factor `1/scale`; confidence and label are
unchanged. -/
def detRescale (d : DetOut) (f : ℚ) : DetOut :=
  { d with x_top_left := d.x_top_left * f, y_top_left := d.y_top_left * f,
           width := d.width * f, height := d.height * f }

/-- The `scale` and `pad` computation of `BBoxToBrambox` (`bbox.py`
lines 128-142). -/
def letterboxParams (net_w net_h : ℚ) (img_size : Option (ℚ × ℚ)) :
    ℚ × ℤ × ℤ :=
  match img_size with
  | none => (1, 0, 0)
  | some (im_w, im_h) =>
    let scale : ℚ :=
      if im_w = net_w ∧ im_h = net_h then 1
      else if im_h / net_h ≤ im_w / net_w then net_w / im_w
      else net_h / im_h
    (scale, pyInt ((net_w - im_w * scale) / 2),
            pyInt ((net_h - im_h * scale) / 2))

/-- `BBoxToBrambox` (`bbox.py` lines 120-163) for one image: each candidate
is converted to network-space pixels, the letterbox pad is subtracted from
the top-left corner, and `rescale(1/scale)` maps the geometry into original
image pixels; confidence is scaled by 100. -/
def BBoxToBrambox (boxes : List Detection6) (net_w net_h : ℚ)
    (img_size : Option (ℚ × ℚ)) : List DetOut :=
  let p := letterboxParams net_w net_h img_size
  boxes.map (fun box =>
    let d : DetOut :=
      ⟨(box.x - box.w / 2) * net_w, (box.y - box.h / 2) * net_h,
       box.w * net_w, box.h * net_h, box.score * 100, box.clsId⟩
    let d2 : DetOut :=
      { d with x_top_left := d.x_top_left - (p.2.1 : ℚ),
               y_top_left := d.y_top_left - (p.2.2 : ℚ) }
    detRescale d2 (1 / p.1))

/-- C4: the IoU function is symmetric, `IoU(a,b) = IoU(b,a)`, for all boxes;
`IoU(a,a) = 1` for every box with positive width and height; and for two
boxes with zero spatial overlap (either intersection dimension, computed as
`w1+w2` minus the enclosing-extent width/height, is at most 0) it returns
exactly 0. -/
theorem C4_iou_properties :
    (∀ a b : Box, bbox_iou a b = bbox_iou b a) ∧
    (∀ a : Box, 0 < a.w → 0 < a.h → bbox_iou a a = 1) ∧
    (∀ a b : Box,
      (a.w + b.w - (max (a.x + a.w / 2) (b.x + b.w / 2) -
          min (a.x - a.w / 2) (b.x - b.w / 2)) ≤ 0 ∨
       a.h + b.h - (max (a.y + a.h / 2) (b.y + b.h / 2) -
          min (a.y - a.h / 2) (b.y - b.h / 2)) ≤ 0) →
      bbox_iou a b = 0) :=
  ⟨bbox_iou_comm, bbox_iou_self, bbox_iou_disjoint⟩

/-- Witness for C4 at concrete boxes: a box of width/height 2 has IoU 1 with
itself, and two unit boxes 5 apart have IoU 0. -/
theorem C4_iou_properties_witness :
    (0 : ℚ) < 2 ∧ bbox_iou ⟨0, 0, 2, 2⟩ ⟨0, 0, 2, 2⟩ = 1 ∧
      bbox_iou ⟨0, 0, 1, 1⟩ ⟨5, 5, 1, 1⟩ = 0 :=
  ⟨by norm_num,
   C4_iou_properties.2.1 ⟨0, 0, 2, 2⟩ (by norm_num) (by norm_num),
   C4_iou_properties.2.2 ⟨0, 0, 1, 1⟩ ⟨5, 5, 1, 1⟩
     (by norm_num [min_def, max_def])⟩

/-- C3: for every input and every `conf_thresh ∈ [0,1]`, no candidate whose
combined score is below `conf_thresh` ever appears among the survivors
returned for its image. -/
theorem C3_confidence_filtering (ct nt : ℚ) (geom : ℕ → Box)
    (clsIdx : ℕ → ℚ) (s : ℕ → ℚ) (n : ℕ) (_h0 : 0 ≤ ct) (_h1 : ct ≤ 1) :
    ∀ p ∈ getRegionBoxesImage ct nt geom clsIdx s n, ¬ s p.1 < ct := by
  intro p hp
  exact not_lt.mpr
    (nmsOuter_mem ct nt geom clsIdx (rankOrder s n) s s
      (sentinelOnly_refl s) p hp).2.1

/-- Witness for C3: a single candidate with score `1` survives a threshold
of `0`, and indeed its score is not below the threshold. -/
theorem C3_confidence_filtering_witness :
    (0 : ℚ) ≤ 0 ∧ ¬ (1 : ℚ) < 0 :=
  ⟨le_refl 0,
   C3_confidence_filtering 0 0 (fun _ => ⟨0, 0, 1, 1⟩)
     (fun _ => 0) (fun _ => 1) 1 (le_refl 0) (by norm_num)
     (0, ⟨0, 0, 1, 1, 1, 0⟩) (by decide)⟩

/-- C6: for every image, the survivors are a subsequence of that image's
ranked candidate order, their scores are the original combined scores and
descend along the output, no candidate is emitted twice, and the number of
survivors is at most the number of candidates with score at least
`conf_thresh`. -/
theorem C6_survivor_invariants (ct nt : ℚ) (geom : ℕ → Box)
    (clsIdx : ℕ → ℚ) (s : ℕ → ℚ) (n : ℕ) :
    List.Sublist ((getRegionBoxesImage ct nt geom clsIdx s n).map Prod.fst)
        (rankOrder s n) ∧
    (∀ p ∈ getRegionBoxesImage ct nt geom clsIdx s n,
        p.2.score = s p.1 ∧ ct ≤ s p.1) ∧
    List.Pairwise (fun p q : ℕ × Detection6 => q.2.score ≤ p.2.score)
        (getRegionBoxesImage ct nt geom clsIdx s n) ∧
    ((getRegionBoxesImage ct nt geom clsIdx s n).map Prod.fst).Nodup ∧
    (getRegionBoxesImage ct nt geom clsIdx s n).length ≤
      ((List.range n).filter (fun i => ct ≤ s i)).length := by
  have hsub := nmsOuter_fst_sublist ct nt geom clsIdx (rankOrder s n) s
  have hmem := fun p hp =>
    nmsOuter_mem ct nt geom clsIdx (rankOrder s n) s s
      (sentinelOnly_refl s) p hp
  have hscore : ∀ p ∈ getRegionBoxesImage ct nt geom clsIdx s n,
      p.2.score = s p.1 ∧ ct ≤ s p.1 := by
    intro p hp
    exact ⟨by rw [(hmem p hp).1], (hmem p hp).2.1⟩
  refine ⟨hsub, hscore, ?_, (rankOrder_nodup s n).sublist hsub, ?_⟩
  · have hpair := (rankOrder_sorted s n).sublist hsub
    have hpair2 := List.pairwise_map.mp hpair
    refine hpair2.imp_of_mem ?_
    intro p q hp hq hr
    rw [(hscore p hp).1, (hscore q hq).1]
    rcases hr with hlt | ⟨heq, _⟩
    · exact hlt.le
    · exact heq.ge
  · have hall : ∀ i ∈ (getRegionBoxesImage ct nt geom clsIdx s n).map
        Prod.fst, (fun i => decide (ct ≤ s i)) i = true := by
      intro i hi
      rcases List.mem_map.mp hi with ⟨p, hp, rfl⟩
      exact decide_eq_true (hscore p hp).2
    calc (getRegionBoxesImage ct nt geom clsIdx s n).length
        = ((getRegionBoxesImage ct nt geom clsIdx s n).map Prod.fst).length :=
          (List.length_map _ _).symm
      _ = (((getRegionBoxesImage ct nt geom clsIdx s n).map Prod.fst).filter
            (fun i => decide (ct ≤ s i))).length := by
          rw [List.filter_eq_self.mpr hall]
      _ ≤ ((rankOrder s n).filter (fun i => decide (ct ≤ s i))).length :=
          (hsub.filter _).length_le
      _ = ((List.range n).filter (fun i => decide (ct ≤ s i))).length :=
          ((rankOrder_perm s n).filter _).length_eq

/-- Witness for C6 on a concrete one-candidate image: the survivor count is
bounded by the number of candidates at or above the threshold. -/
theorem C6_survivor_invariants_witness :
    (getRegionBoxesImage 0 0 (fun _ => ⟨0, 0, 1, 1⟩) (fun _ => 0)
        (fun _ => 1) 1).length ≤
      ((List.range 1).filter
        (fun i => (0 : ℚ) ≤ (fun _ => (1 : ℚ)) i)).length :=
  (C6_survivor_invariants 0 0 (fun _ => ⟨0, 0, 1, 1⟩) (fun _ => 0)
    (fun _ => 1) 1).2.2.2.2

/-- C10: combined scores produced by the decode stage always lie in `[0,1]`;
the suppression loop only ever writes the sentinel `-1` into the score
array; and in every reachable score state the loop's `score < 0` skip test
holds exactly for the sentinel-marked candidates. -/
theorem C10_sentinel_separation (nc : ℕ) (rawObj : ℝ) (logits : List ℝ)
    (s0 : ℕ → ℚ) (h0 : ∀ k, 0 ≤ s0 k) :
    (0 ≤ clsMaxScore nc rawObj logits ∧ clsMaxScore nc rawObj logits ≤ 1) ∧
    (∀ (ct nt : ℚ) (geom : ℕ → Box) (cur : Box) (order : List ℕ)
        (s : ℕ → ℚ), SentinelOnly s0 s →
        SentinelOnly s0 (nmsInner ct nt geom cur order s)) ∧
    (∀ s : ℕ → ℚ, SentinelOnly s0 s → ∀ k, (s k < 0 ↔ s k = -1)) :=
  ⟨clsMaxScore_bounds nc rawObj logits,
   fun ct nt geom cur order s hs =>
     nmsInner_sentinelOnly ct nt geom cur order s0 s hs,
   fun s hs k => sentinelOnly_lt_zero_iff s0 s h0 hs k⟩

/-- Witness for C10 with all-zero initial scores: the single-class combined
score of a zero logit is in `[0,1]`, and an untouched zero score is neither
negative nor the sentinel. -/
theorem C10_sentinel_separation_witness :
    (0 : ℚ) ≤ 0 ∧ (0 ≤ clsMaxScore 1 0 [] ∧ clsMaxScore 1 0 [] ≤ 1) ∧
      ((0 : ℚ) < 0 ↔ (0 : ℚ) = -1) :=
  ⟨le_refl 0,
   (C10_sentinel_separation 1 0 [] (fun _ => 0) (fun _ => le_refl 0)).1,
   (C10_sentinel_separation 1 0 [] (fun _ => 0) (fun _ => le_refl 0)).2.2
     (fun _ => 0) (sentinelOnly_refl _) 3⟩

/-- The concrete decoder input of the spec's decode-correctness test: a 1×1
grid, one anchor, all raw values 0 except the objectness logit `t`. -/
def objInput (t : ℝ) : ℕ → ℕ → ℕ → ℝ := fun _ ch _ => if ch = 4 then t else 0

/-- C1: per grid cell `(r, c)` and anchor `a` the decoder produces
`center_x = (sigmoid(raw_x)+c)/W`, `center_y = (sigmoid(raw_y)+r)/H`,
`width = (exp(raw_w)*anchor_w[a])/W`, `height = (exp(raw_h)*anchor_h[a])/H`,
`objectness = sigmoid(raw_obj)`; with more than one class the combined score
is objectness times the softmax maximum over the class logits; and on a 1×1
grid with a unit anchor and zero raw box values the candidate has
center `(1/2, 1/2)`, width and height 1, and objectness `sigmoid(raw_obj)`,
which is below 1 but tends to 1 as the raw objectness grows. -/
theorem C1_decode_formulas (w h : ℕ) (anchors : List ℝ)
    (inp : ℕ → ℕ → ℕ → ℝ) (a r c : ℕ) (hc : c < w) :
    (decodeTensor w h anchors inp a 0 (r * w + c) =
      (sigmoid (inp a 0 (r * w + c)) + c) / w ∧
     decodeTensor w h anchors inp a 1 (r * w + c) =
      (sigmoid (inp a 1 (r * w + c)) + r) / h ∧
     decodeTensor w h anchors inp a 2 (r * w + c) =
      Real.exp (inp a 2 (r * w + c)) * anchorW anchors a / w ∧
     decodeTensor w h anchors inp a 3 (r * w + c) =
      Real.exp (inp a 3 (r * w + c)) * anchorH anchors a / h ∧
     decodeTensor w h anchors inp a 4 (r * w + c) =
      sigmoid (inp a 4 (r * w + c))) ∧
    (∀ (nc : ℕ) (rawObj : ℝ) (logits : List ℝ), 1 < nc →
      clsMaxScore nc rawObj logits =
        sigmoid rawObj * maxD (softmax logits)) ∧
    (∀ t : ℝ,
      decodeTensor 1 1 [1, 1] (objInput t) 0 0 0 = 1 / 2 ∧
      decodeTensor 1 1 [1, 1] (objInput t) 0 1 0 = 1 / 2 ∧
      decodeTensor 1 1 [1, 1] (objInput t) 0 2 0 = 1 ∧
      decodeTensor 1 1 [1, 1] (objInput t) 0 3 0 = 1 ∧
      decodeTensor 1 1 [1, 1] (objInput t) 0 4 0 = sigmoid t ∧
      sigmoid t < 1) ∧
    Filter.Tendsto sigmoid Filter.atTop (nhds 1) := by
  have hw : 0 < w := lt_of_le_of_lt (Nat.zero_le c) hc
  have hmod : (r * w + c) % w = c := by
    rw [Nat.add_comm, Nat.add_mul_mod_self_right]
    exact Nat.mod_eq_of_lt hc
  have hdiv : (r * w + c) / w = r := by
    rw [Nat.add_comm, Nat.add_mul_div_right _ _ hw, Nat.div_eq_of_lt hc,
      Nat.zero_add]
  refine ⟨⟨?_, ?_, ?_, ?_, ?_⟩, ?_, ?_, tendsto_sigmoid_one⟩
  · simp [decodeTensor, hmod]
  · simp [decodeTensor, hdiv]
  · simp [decodeTensor]
  · simp [decodeTensor]
  · simp [decodeTensor]
  · intro nc rawObj logits hnc
    simp [clsMaxScore, hnc]
  · intro t
    refine ⟨?_, ?_, ?_, ?_, ?_, sigmoid_lt_one t⟩ <;>
      simp [decodeTensor, objInput, anchorW, anchorH, sigmoid_zero,
        Real.exp_zero]

/-- Witness for C1 at the cell `(r, c) = (1, 2)` of a 4×3 grid: the decoded
center-x channel of the all-zero input at flat index `1*4+2 = 6` is
`(sigmoid 0 + 2)/4 = 5/8`. -/
theorem C1_decode_formulas_witness :
    2 < 4 ∧
      decodeTensor 4 3 [1, 1] (fun _ _ _ => 0) 0 0 (1 * 4 + 2) =
        (sigmoid ((fun _ _ _ => (0 : ℝ)) 0 0 (1 * 4 + 2)) + (2 : ℕ)) / (4 : ℕ) :=
  ⟨by norm_num,
   (C1_decode_formulas 4 3 [1, 1] (fun _ _ _ => 0) 0 1 2 (by norm_num)).1.1⟩

/-- C7 (amended): the decode stage overwrites box and objectness channels
(0-4) of the caller's array in place with the decoded values and leaves the
class-logit channels (5 and above) unchanged; beyond this in-place write its
result is determined by the input values alone. -/
theorem C7_decode_frame (w h : ℕ) (anchors : List ℝ) (inp : ℕ → ℕ → ℕ → ℝ)
    (a ch hw : ℕ) (hch : 5 ≤ ch) :
    decodeTensor w h anchors inp a ch hw = inp a ch hw := by
  unfold decodeTensor
  rw [if_neg (by omega), if_neg (by omega), if_neg (by omega),
    if_neg (by omega), if_neg (by omega)]

/-- Witness for C7: the first class-logit channel of an all-zero input is
still zero after the decode. -/
theorem C7_decode_frame_witness :
    5 ≤ 5 ∧ decodeTensor 1 1 [1, 1] (fun _ _ _ => 0) 0 5 0 = 0 :=
  ⟨le_refl 5, C7_decode_frame 1 1 [1, 1] (fun _ _ _ => 0) 0 5 0 (le_refl 5)⟩

/-- Counterexample to C7 as stated: the decode stage is not free of side
effects on the caller's array — lines 62-66 of `bbox.py` mutate `output` in
place, so after the call the width channel of an all-zero input holds
`exp 0 * anchor_w / 1 = 1`, not its original value `0`. -/
theorem C7_mutation_counterexample :
    decodeTensor 1 1 [1, 1] (fun _ _ _ => 0) 0 2 0 ≠
      (fun _ _ _ => (0 : ℝ)) 0 2 0 := by
  simp [decodeTensor, anchorW]

/-- C2: if an image's candidates are exactly two, with identical box
geometry of positive width and height (so their IoU is 1), both scores at
least the (nonnegative) `conf_thresh`, and `nms_thresh < 1`, then exactly
one of them survives suppression: the one with the higher combined score,
and on a score tie the one with the lower original linear index (the ranked
order is the stable descending sort on score). -/
theorem C2_nms_exactness (g : Box) (geom : ℕ → Box) (clsIdx s : ℕ → ℚ)
    (s0 s1 ct nt : ℚ)
    (hg0 : geom 0 = g) (hg1 : geom 1 = g) (hs0 : s 0 = s0) (hs1 : s 1 = s1)
    (hw : 0 < g.w) (hh : 0 < g.h) (hct : 0 ≤ ct)
    (h0 : ct ≤ s0) (h1 : ct ≤ s1) (hnt : nt < 1) :
    getRegionBoxesImage ct nt geom clsIdx s 2 =
      if s1 ≤ s0 then [(0, ⟨g.x, g.y, g.w, g.h, s0, clsIdx 0⟩)]
      else [(1, ⟨g.x, g.y, g.w, g.h, s1, clsIdx 1⟩)] := by
  have hiou := bbox_iou_self g hw hh
  have hrange : List.range 2 = [0, 1] := rfl
  by_cases hcmp : s1 ≤ s0
  · have hr : rankLE s 0 1 := by
      rcases lt_or_eq_of_le hcmp with hlt | heq
      · exact Or.inl (by rw [hs0, hs1]; exact hlt)
      · exact Or.inr ⟨by rw [hs0, hs1, heq], by norm_num⟩
    have horder : rankOrder s 2 = [0, 1] := by
      unfold rankOrder
      rw [hrange]
      simp [List.insertionSort, List.orderedInsert, hr]
    have c1 : ¬ s 0 < 0 := by rw [hs0]; exact not_lt.mpr (hct.trans h0)
    have c2 : ¬ s 0 < ct := by rw [hs0]; exact not_lt.mpr h0
    have d1 : ¬ (0 ≤ s 1 ∧ s 1 < ct) := by
      rw [hs1]; rintro ⟨-, hlt⟩; exact absurd hlt (not_lt.mpr h1)
    have d2 : 0 ≤ s 1 ∧ nt < bbox_iou (geom 0) (geom 1) :=
      ⟨by rw [hs1]; exact hct.trans h1,
       by rw [hg0, hg1, hiou]; exact hnt⟩
    have e1 : Function.update s 1 (-1) 1 < 0 := by
      rw [Function.update_same]; norm_num
    unfold getRegionBoxesImage
    rw [horder, nmsOuter_cons_emit _ _ _ _ _ _ _ c1 c2,
      nmsInner_cons_mark _ _ _ _ _ _ _ d1 d2, nmsInner_nil,
      nmsOuter_cons_skip _ _ _ _ _ _ _ e1, nmsOuter_nil, if_pos hcmp,
      hs0, hg0]
  · have hnr : ¬ rankLE s 0 1 := by
      rintro (hlt | ⟨heq, -⟩)
      · rw [hs0, hs1] at hlt; exact absurd hcmp (not_not_intro hlt.le)
      · rw [hs0, hs1] at heq; exact hcmp heq.ge
    have horder : rankOrder s 2 = [1, 0] := by
      unfold rankOrder
      rw [hrange]
      simp [List.insertionSort, List.orderedInsert, hnr]
    have hlt01 : s0 < s1 := not_le.mp hcmp
    have c1 : ¬ s 1 < 0 := by rw [hs1]; exact not_lt.mpr (hct.trans h1)
    have c2 : ¬ s 1 < ct := by rw [hs1]; exact not_lt.mpr h1
    have d1 : ¬ (0 ≤ s 0 ∧ s 0 < ct) := by
      rw [hs0]; rintro ⟨-, hlt⟩; exact absurd hlt (not_lt.mpr h0)
    have d2 : 0 ≤ s 0 ∧ nt < bbox_iou (geom 1) (geom 0) :=
      ⟨by rw [hs0]; exact hct.trans h0,
       by rw [hg0, hg1, hiou]; exact hnt⟩
    have e1 : Function.update s 0 (-1) 0 < 0 := by
      rw [Function.update_same]; norm_num
    unfold getRegionBoxesImage
    rw [horder, nmsOuter_cons_emit _ _ _ _ _ _ _ c1 c2,
      nmsInner_cons_mark _ _ _ _ _ _ _ d1 d2, nmsInner_nil,
      nmsOuter_cons_skip _ _ _ _ _ _ _ e1, nmsOuter_nil, if_neg hcmp,
      hs1, hg1]

/-- Witness for C2: two coincident unit boxes with scores 2 and 1, both at
least `conf_thresh = 1`, with `nms_thresh = 0`: only the index-0 candidate
(score 2) survives. -/
theorem C2_nms_exactness_witness :
    (0 : ℚ) < 1 ∧
      getRegionBoxesImage 1 0 (fun _ => ⟨0, 0, 1, 1⟩) (fun _ => 0)
          (fun i => if i = 0 then 2 else 1) 2 =
        [(0, ⟨0, 0, 1, 1, 2, 0⟩)] := by
  constructor
  · norm_num
  · have h := C2_nms_exactness ⟨0, 0, 1, 1⟩ (fun _ => ⟨0, 0, 1, 1⟩)
      (fun _ => 0) (fun i => if i = 0 then 2 else 1) 2 1 1 0
      rfl rfl (by norm_num) (by norm_num) (by norm_num) (by norm_num)
      (by norm_num) (by norm_num) (by norm_num) (by norm_num)
    rw [h, if_pos (by norm_num : (1 : ℚ) ≤ 2)]

theorem pyInt_zero : pyInt 0 = 0 := rfl

/-- C5: the coordinate mapper uses `scale = 1`, `pad = (0,0)` when
`img_size` is absent or equal to `net_size` (output pixel coordinates are
then exactly the normalized coordinates times `net_size`); otherwise
`scale = net_w/im_w` if `im_w/net_w ≥ im_h/net_h` else `net_h/im_h`, with
`pad = (⌊(net_w-im_w*scale)/2⌋, ⌊(net_h-im_h*scale)/2⌋)`; and every
candidate is converted to network-space pixels, the pad subtracted, the
result divided by `scale`, with confidence multiplied by 100. -/
theorem C5_coordinate_mapper (net_w net_h im_w im_h : ℚ) (b : Detection6)
    (hnw : 0 < net_w) (hnh : 0 < net_h) (hiw : 0 < im_w) (hih : 0 < im_h) :
    (letterboxParams net_w net_h none = (1, 0, 0) ∧
     BBoxToBrambox [b] net_w net_h none =
       [⟨(b.x - b.w / 2) * net_w, (b.y - b.h / 2) * net_h,
         b.w * net_w, b.h * net_h, b.score * 100, b.clsId⟩]) ∧
    ((im_w = net_w ∧ im_h = net_h) →
      letterboxParams net_w net_h (some (im_w, im_h)) = (1, 0, 0) ∧
      BBoxToBrambox [b] net_w net_h (some (im_w, im_h)) =
        [⟨(b.x - b.w / 2) * net_w, (b.y - b.h / 2) * net_h,
          b.w * net_w, b.h * net_h, b.score * 100, b.clsId⟩]) ∧
    (¬ (im_w = net_w ∧ im_h = net_h) →
      (im_h / net_h ≤ im_w / net_w →
        letterboxParams net_w net_h (some (im_w, im_h)) =
          (net_w / im_w,
           ⌊(net_w - im_w * (net_w / im_w)) / 2⌋,
           ⌊(net_h - im_h * (net_w / im_w)) / 2⌋)) ∧
      (¬ im_h / net_h ≤ im_w / net_w →
        letterboxParams net_w net_h (some (im_w, im_h)) =
          (net_h / im_h,
           ⌊(net_w - im_w * (net_h / im_h)) / 2⌋,
           ⌊(net_h - im_h * (net_h / im_h)) / 2⌋))) ∧
    (∀ img_size : Option (ℚ × ℚ),
      BBoxToBrambox [b] net_w net_h img_size =
        [⟨((b.x - b.w / 2) * net_w -
             ((letterboxParams net_w net_h img_size).2.1 : ℚ)) /
            (letterboxParams net_w net_h img_size).1,
          ((b.y - b.h / 2) * net_h -
             ((letterboxParams net_w net_h img_size).2.2 : ℚ)) /
            (letterboxParams net_w net_h img_size).1,
          b.w * net_w / (letterboxParams net_w net_h img_size).1,
          b.h * net_h / (letterboxParams net_w net_h img_size).1,
          b.score * 100, b.clsId⟩]) := by
  refine ⟨⟨rfl, ?_⟩, ?_, ?_, ?_⟩
  · simp [BBoxToBrambox, letterboxParams, detRescale]
  · rintro ⟨rfl, rfl⟩
    constructor
    · simp [letterboxParams, pyInt_zero]
    · simp [BBoxToBrambox, letterboxParams, detRescale, pyInt_zero]
  · intro hne
    constructor
    · intro hax
      have him : im_w * (net_w / im_w) = net_w := by
        rw [mul_comm, div_mul_cancel₀ net_w (ne_of_gt hiw)]
      have hkey : im_h * net_w ≤ im_w * net_h := by
        rw [div_le_div_iff₀ hnh hnw] at hax
        exact hax
      have hpy : 0 ≤ (net_h - im_h * (net_w / im_w)) / 2 := by
        have : im_h * (net_w / im_w) ≤ net_h := by
          rw [← mul_div_assoc, div_le_iff₀ hiw]
          calc im_h * net_w ≤ im_w * net_h := hkey
            _ = net_h * im_w := mul_comm _ _
        linarith
      have hpx : 0 ≤ (net_w - im_w * (net_w / im_w)) / 2 := by
        rw [him]; simp
      simp only [letterboxParams, if_neg hne, if_pos hax]
      rw [pyInt_eq_floor _ hpx, pyInt_eq_floor _ hpy]
    · intro hax
      have hlt : im_w / net_w < im_h / net_h := not_le.mp hax
      have hkey : im_w * net_h ≤ im_h * net_w := by
        rw [div_lt_div_iff₀ hnw hnh] at hlt
        exact hlt.le
      have hpx : 0 ≤ (net_w - im_w * (net_h / im_h)) / 2 := by
        have : im_w * (net_h / im_h) ≤ net_w := by
          rw [← mul_div_assoc, div_le_iff₀ hih]
          calc im_w * net_h ≤ im_h * net_w := hkey
            _ = net_w * im_h := mul_comm _ _
        linarith
      have hpy : 0 ≤ (net_h - im_h * (net_h / im_h)) / 2 := by
        have : im_h * (net_h / im_h) = net_h := by
          rw [mul_comm, div_mul_cancel₀ net_h (ne_of_gt hih)]
        rw [this]; simp
      simp only [letterboxParams, if_neg hne, if_neg hax]
      rw [pyInt_eq_floor _ hpx, pyInt_eq_floor _ hpy]
  · intro img_size
    simp [BBoxToBrambox, detRescale, mul_one_div, div_eq_mul_inv]

/-- Witness for C5 at the spec's letterbox example: `net_size = (416,416)`,
`img_size = (300,600)`. -/
theorem C5_coordinate_mapper_witness :
    (0 : ℚ) < 416 ∧
      letterboxParams 416 416 (some (300, 600)) =
        (416 / 600,
         ⌊((416 : ℚ) - 300 * (416 / 600)) / 2⌋,
         ⌊((416 : ℚ) - 600 * (416 / 600)) / 2⌋) := by
  constructor
  · norm_num
  · exact ((C5_coordinate_mapper 416 416 300 600 ⟨0, 0, 1, 1, 1, 0⟩
      (by norm_num) (by norm_num) (by norm_num) (by norm_num)).2.2.1
      (by norm_num)).2 (by norm_num)

/-- C8 (amended): neither construction nor invocation validates the
thresholds — `__init__` stores `conf_thresh` and `nms_thresh` exactly as
given, even outside `[0,1]`, and a call raises no configuration error: the
only errors raised on the call path are the shape errors of the input
check, which occur before any output is produced. -/
theorem C8_no_threshold_validation (net : Network) (ct nt : ℚ)
    (inp : NmsInput) :
    (BBoxConverter.init net ct nt).conf_thresh = ct ∧
    (BBoxConverter.init net ct nt).nms_thresh = nt ∧
    (∀ e, BBoxConverter.call (BBoxConverter.init net ct nt) inp = .error e ↔
      checkShape net.num_anchors net.num_classes inp.channels = .error e) := by
  refine ⟨rfl, rfl, fun e => ?_⟩
  cases h : checkShape net.num_anchors net.num_classes inp.channels with
  | error e2 => simp [BBoxConverter.call, BBoxConverter.init, h]
  | ok k => simp [BBoxConverter.call, BBoxConverter.init, h]

/-- Counterexample to C8 as stated: a converter constructed with
`conf_thresh = 2 ∉ [0,1]` stores the value unchecked, and invoking it on a
well-shaped single-candidate input raises no error at all — it returns a
normal (empty) result. -/
theorem C8_counterexample :
    (BBoxConverter.init ⟨[1, 1], 1, 1⟩ 2 1).conf_thresh = 2 ∧
      BBoxConverter.call (BBoxConverter.init ⟨[1, 1], 1, 1⟩ 2 1)
          ⟨6, [⟨1, fun _ => ⟨0, 0, 1, 1⟩, fun _ => 0, fun _ => 1⟩]⟩ =
        .ok [[]] :=
  ⟨rfl, rfl⟩

/-- C9 (amended): a rank-3 input is treated as a batch of size 1; a channel
count that is not a multiple of `num_anchors` fails the view with a shape
error; but the check accepts every channel count that is a multiple of
`num_anchors` with at least 5 channels per anchor (more than 5 when
`num_classes > 1`) — including counts different from
`num_anchors*(5+num_classes)`. -/
theorem C9_shape_contract (dims : List ℕ) (A nc C : ℕ)
    (h3 : dims.length = 3) :
    ensureBatch4 dims = 1 :: dims ∧
    (C % A ≠ 0 → checkShape A nc C = .error .viewMismatch) ∧
    (∀ k, checkShape A nc C = .ok k →
      k = C / A ∧ C % A = 0 ∧ 5 ≤ k ∧ (1 < nc → 5 < k)) := by
  refine ⟨?_, ?_, ?_⟩
  · unfold ensureBatch4
    rw [if_pos h3]
  · intro h
    unfold checkShape
    rw [if_pos h]
  · intro k hk
    unfold checkShape at hk
    split at hk
    · exact absurd hk (by simp)
    · split at hk
      · exact absurd hk (by simp)
      · split at hk
        · exact absurd hk (by simp)
        · rename_i h1 h2 hcls
          simp only [Except.ok.injEq] at hk
          subst hk
          refine ⟨rfl, not_not.mp h1, not_lt.mp h2, fun hnc => ?_⟩
          rcases Nat.lt_or_ge 5 (C / A) with h5 | h5
          · exact h5
          · exact absurd ⟨hnc, le_antisymm h5 (not_lt.mp h2)⟩ hcls

/-- Witness for C9: a rank-3 shape `[6,1,1]` becomes the batch-1 shape
`[1,6,1,1]`, and the expected channel count 6 for one anchor and one class
passes the check. -/
theorem C9_shape_contract_witness :
    ([6, 1, 1] : List ℕ).length = 3 ∧ ensureBatch4 [6, 1, 1] = [1, 6, 1, 1] ∧
      checkShape 1 1 6 = .ok 6 :=
  ⟨rfl, (C9_shape_contract [6, 1, 1] 1 1 6 rfl).1, rfl⟩

/-- Counterexample to C9 as stated: with one anchor and one class the
expected channel count is `1*(5+1) = 6`, yet an input with 7 channels is
accepted by the decode stage (the view of line 61 infers 7 channels per
anchor and the extra channels are simply ignored), instead of failing with
a shape-mismatch error. -/
theorem C9_counterexample :
    checkShape 1 1 7 = .ok 7 ∧ 7 ≠ 1 * (5 + 1) :=
  ⟨rfl, by norm_num⟩

end Lightnet
